import Mathlib

/-!
Verification of the ChebPE probability-estimation notebook (chebpe.ipynb).

The notebook's numeric core is shallowly embedded here over the real numbers:
Python/numpy floats become `ℝ`, `np.arccos`/`np.sqrt`/`np.cos` become the
Mathlib functions `Real.arccos`/`Real.sqrt`/`Real.cos`, `scipy`'s
`eval_chebyt` becomes evaluation of Mathlib's Chebyshev polynomial
`Polynomial.Chebyshev.T`, Python's `int(...)` truncation becomes `pytrunc`,
`np.floor` becomes `Int.floor`, and Python's `//` on the nonnegative
integers appearing here agrees with `Int` division.  The two genuinely
external calls — `statsmodels.proportion_confint` (a Clopper–Pearson
interval) and `np.random.random` — are modelled as explicit parameters of
the run configuration (`confint` and `stream`), exactly as they feed the
algorithm, so every theorem about the estimation loop quantifies over the
possible behaviours of those externals.
-/

open Real

noncomputable section

namespace ChebPE

/-- Python `int(x)` applied to a float: truncation toward zero. -/
def pytrunc (x : ℝ) : ℤ := if 0 ≤ x then ⌊x⌋ else -⌊-x⌋

/-- The square of the degree-`n` Chebyshev polynomial of the first kind
evaluated at `√p`; the notebook writes `cheb(n, np.sqrt(p))**2`. -/
def chebT2 (n : ℤ) (p : ℝ) : ℝ :=
  (Polynomial.Chebyshev.T ℝ n).eval (Real.sqrt p) ^ 2

/-- The half-period length `c = π/(2n)` used by `invert_T2rootp`. -/
def halfPeriod (n : ℤ) : ℝ := π / (2 * (n : ℝ))

/-- The half-period index `t = np.floor(theta_int/c)` of the reference point
in `invert_T2rootp`, where `theta_int = np.arccos(np.sqrt(p_int))`. -/
def tRef (n : ℤ) (pint : ℝ) : ℤ :=
  ⌊Real.arccos (Real.sqrt pint) / halfPeriod n⌋

/-- The angle computed by `invert_T2rootp` before the final `np.cos(...)**2`:
branch selection on the parity of `t`, then the periodic offset
`np.pi*(t//2)/n`. -/
def invertTheta (T2 : ℝ) (n : ℤ) (pint : ℝ) : ℝ :=
  (if tRef n pint % 2 = 0 then Real.arccos (2 * T2 - 1) / (2 * (n : ℝ))
   else 2 * halfPeriod n - Real.arccos (2 * T2 - 1) / (2 * (n : ℝ))) +
    π * ((tRef n pint / 2 : ℤ) : ℝ) / (n : ℝ)

/-- The notebook's `invert_T2rootp(T2, n, p_int)`: invert `T2 = T²_n(√p)`,
selecting the solution branch in the same half-period as the reference. -/
def invert_T2rootp (T2 : ℝ) (n : ℤ) (pint : ℝ) : ℝ :=
  Real.cos (invertTheta T2 n pint) ^ 2

/-- The initial candidate `n = int((np.pi/2)/(theta_hi - theta_lo))` of
`find_next_k`, before the parity adjustment. -/
def n0cand (pmin pmax : ℝ) : ℤ :=
  pytrunc ((π / 2) / (Real.arccos (Real.sqrt pmin) - Real.arccos (Real.sqrt pmax)))

/-- The first odd candidate degree tested by `find_next_k`:
`if n % 2 == 0: n += 1`. -/
def firstCandidate (pmin pmax : ℝ) : ℤ :=
  if n0cand pmin pmax % 2 = 0 then n0cand pmin pmax + 1 else n0cand pmin pmax

/-- The descending search loop of `find_next_k`: while `n > 2*min_k+1`,
return `(n-1)//2` as soon as `int(2*n*theta_lo/np.pi) == int(2*n*theta_hi/np.pi)`,
else decrease `n` by 2; return `None` when the loop exhausts. -/
def findLoopAux (mink : ℤ) (lo hi : ℝ) (n : ℤ) : Option ℤ :=
  if h : 2 * mink + 1 < n then
    if pytrunc (2 * (n : ℝ) * lo / π) = pytrunc (2 * (n : ℝ) * hi / π) then
      some ((n - 1) / 2)
    else findLoopAux mink lo hi (n - 2)
  else none
termination_by (n - (2 * mink + 1)).toNat
decreasing_by omega

/-- The notebook's `find_next_k(p_min, p_max, min_k)`. -/
def find_next_k (pmin pmax : ℝ) (mink : ℤ) : Option ℤ :=
  findLoopAux mink (Real.arccos (Real.sqrt pmax)) (Real.arccos (Real.sqrt pmin))
    (firstCandidate pmin pmax)

/-- The notebook's `max_error_cp(delta, Nshots)`: fold over
`counts in range(0, Nshots+1)`, keeping the largest half-width
`(upper-lower)/2` of the confidence interval returned by the external
`proportion_confint` (passed here as the parameter `confint`). -/
def max_error_cp (confint : ℕ → ℕ → ℝ → ℝ × ℝ) (delta : ℝ) (Nshots : ℕ) : ℝ :=
  (List.range (Nshots + 1)).foldl
    (fun m counts =>
      if ((confint counts Nshots delta).2 - (confint counts Nshots delta).1) / 2 > m then
        ((confint counts Nshots delta).2 - (confint counts Nshots delta).1) / 2
      else m) 0

/-- The early/late test `err_max * (p_max - p_min)/gap < nu*eps` of step 4(b),
under the numpy float semantics the notebook actually runs with: when
`gap == 0.0` the quotient is `±inf` (or `nan` for a zero numerator), arising
from `x/+0.0`, and the comparison `< nu*eps` then holds exactly when the
numerator is negative.  For `gap ≠ 0` the test is the exact real
comparison. -/
def lateTest (err nu eps pmin pmax gap : ℝ) : Prop :=
  if gap = 0 then err * (pmax - pmin) < 0
  else err * (pmax - pmin) / gap < nu * eps

instance (err nu eps pmin pmax gap : ℝ) :
    Decidable (lateTest err nu eps pmin pmax gap) := by
  unfold lateTest
  infer_instance

/-- Number of shots drawn in one iteration: `1` when late, `Nshots` when
early (step 4(b)). -/
def shotsThisRound (err nu eps pmin pmax gap : ℝ) (Nshots : ℕ) : ℕ :=
  if lateTest err nu eps pmin pmax gap then 1 else Nshots

/-- Heads among the next `m` draws of the random stream compared against the
success probability `T2`, as in step 4(c): `np.random.random() < T2`. -/
def countHeads (stream : ℕ → ℝ) (T2 : ℝ) : ℕ → ℕ → ℕ
  | _, 0 => 0
  | i, m + 1 => (if stream i < T2 then 1 else 0) + countHeads stream T2 (i + 1) m

/-- A run configuration of `chebpe`.  The fields `p_target, eps, alpha, nu,
r, Nshots` are the Python arguments; `confint` stands for the external
`statsmodels.proportion_confint(count, nobs, alpha)` call and `stream` for
the external `np.random.random()` source. -/
structure ChebConfig where
  p_target : ℝ
  eps : ℝ
  alpha : ℝ
  nu : ℝ
  r : ℤ
  Nshots : ℕ
  confint : ℕ → ℕ → ℝ → ℝ × ℝ
  stream : ℕ → ℝ

/-- The mutable state of the `chebpe` loop: confidence interval, tally,
current `k`, accumulated query cost, and the position in the random
stream. -/
structure ChebState where
  p_min : ℝ
  p_max : ℝ
  num_flips : ℕ
  num_heads : ℕ
  k : ℤ
  queries : ℤ
  idx : ℕ

/-- Step 1 of `chebpe`: `T = int(np.ceil(np.log(1/(2*eps))/np.log(r)))`. -/
def Tval (cfg : ChebConfig) : ℤ :=
  ⌈Real.log (1 / (2 * cfg.eps)) / Real.log (cfg.r : ℝ)⌉

/-- Step 1 of `chebpe`: `alpha_T = alpha/T`. -/
def alphaT (cfg : ChebConfig) : ℝ := cfg.alpha / ((Tval cfg : ℤ) : ℝ)

/-- Step 2 of `chebpe`: `err_max = max_error_cp(alpha_T, Nshots)`. -/
def errMaxRun (cfg : ChebConfig) : ℝ :=
  max_error_cp cfg.confint (alphaT cfg) cfg.Nshots

/-- Step 3 of `chebpe`: `p_min, p_max = 0, 1`, zero tally, `k = 0`,
`queries = 0`. -/
def chebInit : ChebState :=
  { p_min := 0, p_max := 1, num_flips := 0, num_heads := 0, k := 0,
    queries := 0, idx := 0 }

/-- The numeric slack `1e-15` applied to the inverted interval. -/
def slack : ℝ := 1 / 10 ^ 15

/-- One iteration of the `chebpe` while-loop, steps 4(a)-5(d). -/
def chebStep (cfg : ChebConfig) (s : ChebState) : ChebState :=
  let s1 : ChebState :=
    match find_next_k s.p_min s.p_max (cfg.r * s.k) with
    | some k2 => { s with k := k2, num_flips := 0, num_heads := 0 }
    | none => s
  let n : ℤ := 2 * s1.k + 1
  let gap : ℝ := chebT2 n s1.p_max - chebT2 n s1.p_min
  let shots : ℕ :=
    shotsThisRound (errMaxRun cfg) cfg.nu cfg.eps s1.p_min s1.p_max gap cfg.Nshots
  let heads2 : ℕ := s1.num_heads + countHeads cfg.stream (chebT2 n cfg.p_target) s1.idx shots
  let flips2 : ℕ := s1.num_flips + shots
  let queries2 : ℤ := s1.queries + (shots : ℤ) * n
  let ci : ℝ × ℝ := cfg.confint heads2 flips2 (alphaT cfg)
  let pint : ℝ := (s1.p_min + s1.p_max) / 2
  let a : ℝ := invert_T2rootp ci.1 n pint
  let b : ℝ := invert_T2rootp ci.2 n pint
  { p_min := max s1.p_min (min a b - slack),
    p_max := min s1.p_max (max a b + slack),
    num_flips := flips2, num_heads := heads2, k := s1.k,
    queries := queries2, idx := s1.idx + shots }

/-- State of the `chebpe` run at the top of iteration `i+1` (equivalently
after `i` executions of the loop body); the loop body runs only while
`p_max - p_min > eps*2`. -/
def chebRun (cfg : ChebConfig) : ℕ → ChebState
  | 0 => chebInit
  | i + 1 =>
    if (chebRun cfg i).p_max - (chebRun cfg i).p_min > cfg.eps * 2 then
      chebStep cfg (chebRun cfg i)
    else chebRun cfg i

/-! ### Basic evaluation lemmas -/

theorem pytrunc_of_nonneg {x : ℝ} (h : 0 ≤ x) : pytrunc x = ⌊x⌋ := if_pos h

theorem chebT2_eq_cos (n : ℤ) (p : ℝ) (h1 : p ≤ 1) :
    chebT2 n p = Real.cos ((n : ℝ) * Real.arccos (Real.sqrt p)) ^ 2 := by
  have hs : Real.sqrt p = Real.cos (Real.arccos (Real.sqrt p)) :=
    (Real.cos_arccos (by linarith [Real.sqrt_nonneg p]) (Real.sqrt_le_one.mpr h1)).symm
  rw [chebT2]
  conv_lhs => rw [hs]
  rw [Polynomial.Chebyshev.T_real_cos]

theorem chebT2_one_eval (p : ℝ) (h : 0 ≤ p) : chebT2 1 p = p := by
  rw [chebT2, Polynomial.Chebyshev.T_one, Polynomial.eval_X, Real.sq_sqrt h]

theorem invert_T2rootp_mem_unit (T2 : ℝ) (n : ℤ) (pint : ℝ) :
    0 ≤ invert_T2rootp T2 n pint ∧ invert_T2rootp T2 n pint ≤ 1 :=
  ⟨sq_nonneg _, Real.cos_sq_le_one _⟩

theorem sqrt_half_eq : Real.sqrt (1 / 2 : ℝ) = Real.sqrt 2 / 2 := by
  have h2 : ((1 : ℝ) / 2) = (Real.sqrt 2 / 2) ^ 2 := by
    rw [div_pow, Real.sq_sqrt (by norm_num : (0:ℝ) ≤ 2)]
    norm_num
  rw [h2, Real.sqrt_sq (by positivity)]

theorem arccos_sqrt_half : Real.arccos (Real.sqrt (1 / 2 : ℝ)) = π / 4 := by
  rw [sqrt_half_eq, ← Real.cos_pi_div_four]
  exact Real.arccos_cos (by positivity) (by linarith [pi_pos])

theorem tRef_one_half : tRef 1 (1 / 2) = 0 := by
  rw [tRef, halfPeriod, arccos_sqrt_half]
  have hπ : π ≠ 0 := pi_ne_zero
  have hval : (π / 4) / (π / (2 * ((1 : ℤ) : ℝ))) = 1 / 2 := by
    push_cast
    field_simp
    ring
  rw [hval]
  rw [Int.floor_eq_iff]
  norm_num

theorem invert_zero_one_half : invert_T2rootp 0 1 (1 / 2) = 0 := by
  rw [invert_T2rootp, invertTheta, tRef_one_half]
  norm_num

theorem invert_one_one_half : invert_T2rootp 1 1 (1 / 2) = 1 := by
  rw [invert_T2rootp, invertTheta, tRef_one_half]
  norm_num

theorem find_next_k_init_none : find_next_k 0 1 0 = none := by
  have hlo : Real.arccos (Real.sqrt 1) = 0 := by rw [Real.sqrt_one, Real.arccos_one]
  have hhi : Real.arccos (Real.sqrt 0) = π / 2 := by rw [Real.sqrt_zero, Real.arccos_zero]
  have hcand : firstCandidate 0 1 = 1 := by
    rw [firstCandidate, n0cand, hlo, hhi]
    have hval : (π / 2) / (π / 2 - 0) = 1 := by
      have : π / 2 ≠ 0 := by positivity
      field_simp
    rw [hval, pytrunc_of_nonneg (by norm_num)]
    norm_num
  rw [find_next_k, hcand, hlo, hhi, findLoopAux]
  norm_num

/-! ### A concrete family of runs used to exercise the estimation loop

`cfgConst α` fixes `p_target = 1/2`, `eps = 1/8`, `nu = 8`, `r = 2`,
`Nshots = 100` (the notebook defaults for the latter three), instantiates
the external confidence-interval routine with one that always returns the
trivial interval `(0, 1)`, and the external random source with the constant
value `1` (every toss is tails).  Only `alpha` is left free. -/

def cfgConst (alpha : ℝ) : ChebConfig :=
  { p_target := 1 / 2, eps := 1 / 8, alpha := alpha, nu := 8, r := 2,
    Nshots := 100, confint := fun _ _ _ => (0, 1), stream := fun _ => 1 }

theorem errMaxRun_cfgConst (alpha : ℝ) : errMaxRun (cfgConst alpha) = 1 / 2 := by
  have key : ∀ (l : List ℕ) (m : ℝ), m = 1 / 2 →
      l.foldl (fun m _ => if (1 : ℝ) / 2 > m then 1 / 2 else m) m = 1 / 2 := by
    intro l
    induction l with
    | nil => intro m hm; simpa using hm
    | cons a l ih =>
      intro m hm
      subst hm
      rw [List.foldl_cons]
      exact ih _ (by norm_num)
  rw [errMaxRun, max_error_cp]
  have hfn : (fun (m : ℝ) (counts : ℕ) =>
      if (((cfgConst alpha).confint counts (cfgConst alpha).Nshots
            (alphaT (cfgConst alpha))).2 -
          ((cfgConst alpha).confint counts (cfgConst alpha).Nshots
            (alphaT (cfgConst alpha))).1) / 2 > m then
        (((cfgConst alpha).confint counts (cfgConst alpha).Nshots
            (alphaT (cfgConst alpha))).2 -
          ((cfgConst alpha).confint counts (cfgConst alpha).Nshots
            (alphaT (cfgConst alpha))).1) / 2
      else m) =
      fun (m : ℝ) (_ : ℕ) => if (1 : ℝ) / 2 > m then 1 / 2 else m := by
    funext m c
    show (if ((1:ℝ) - 0) / 2 > m then ((1:ℝ) - 0) / 2 else m) = _
    norm_num
  rw [hfn]
  rcases List.exists_cons_of_ne_nil
      (l := List.range ((cfgConst alpha).Nshots + 1)) (by simp) with ⟨a, l, hl⟩
  rw [hl, List.foldl_cons]
  exact key l _ (by norm_num)

theorem cfgConst_r (alpha : ℝ) : (cfgConst alpha).r = 2 := rfl

theorem cfgConst_eps (alpha : ℝ) : (cfgConst alpha).eps = 1 / 8 := rfl

theorem cfgConst_nu (alpha : ℝ) : (cfgConst alpha).nu = 8 := rfl

theorem cfgConst_Nshots (alpha : ℝ) : (cfgConst alpha).Nshots = 100 := rfl

theorem cfgConst_ptarget (alpha : ℝ) : (cfgConst alpha).p_target = 1 / 2 := rfl

theorem cfgConst_alpha (alpha : ℝ) : (cfgConst alpha).alpha = alpha := rfl

theorem cfgConst_confint (alpha : ℝ) (a b : ℕ) (c : ℝ) :
    (cfgConst alpha).confint a b c = (0, 1) := rfl

theorem cfgConst_stream (alpha : ℝ) : (cfgConst alpha).stream = fun _ => (1 : ℝ) := rfl

theorem countHeads_tails (j : ℕ) :
    countHeads (fun _ => (1 : ℝ)) (1 / 2) j 1 = 0 := by
  show countHeads (fun _ => (1 : ℝ)) (1 / 2) j (0 + 1) = 0
  rw [countHeads, countHeads]
  norm_num

theorem shots_cfg_eval :
    shotsThisRound (1 / 2) 8 (1 / 8) 0 1 ((1 : ℝ) - 0) 100 = 1 := by
  have hl : lateTest (1 / 2) 8 (1 / 8) 0 1 ((1 : ℝ) - 0) := by
    rw [lateTest]
    norm_num
  rw [shotsThisRound, if_pos hl]

theorem chebStep_cfgConst (alpha : ℝ) (f h j : ℕ) (q : ℤ) :
    chebStep (cfgConst alpha) ⟨0, 1, f, h, 0, q, j⟩ =
      ⟨0, 1, f + 1, h, 0, q + 1, j + 1⟩ := by
  have hc1 : chebT2 1 (1 : ℝ) = 1 := chebT2_one_eval 1 (by norm_num)
  have hc0 : chebT2 1 (0 : ℝ) = 0 := chebT2_one_eval 0 le_rfl
  have hch : chebT2 1 ((1 : ℝ) / 2) = 1 / 2 := chebT2_one_eval _ (by norm_num)
  simp only [chebStep, cfgConst_r, cfgConst_eps, cfgConst_nu, cfgConst_Nshots,
    cfgConst_ptarget, cfgConst_confint, cfgConst_stream, mul_zero,
    find_next_k_init_none]
  simp only [show (2 : ℤ) * 0 + 1 = 1 by norm_num, hc1, hc0, hch,
    errMaxRun_cfgConst, shots_cfg_eval, countHeads_tails]
  norm_num [invert_zero_one_half, invert_one_one_half, slack]
  rw [hc1, hc0, shots_cfg_eval, hch, countHeads_tails]
  norm_num

theorem chebRun_cfgConst (alpha : ℝ) (i : ℕ) :
    chebRun (cfgConst alpha) i = ⟨0, 1, i, 0, 0, (i : ℤ), i⟩ := by
  induction i with
  | zero => rfl
  | succ n ih =>
    rw [chebRun, ih]
    rw [if_pos (by norm_num [cfgConst_eps])]
    rw [chebStep_cfgConst]
    push_cast
    norm_num

theorem Tval_cfgConst (alpha : ℝ) : Tval (cfgConst alpha) = 2 := by
  rw [Tval]
  simp only [cfgConst_eps, cfgConst_r]
  have h4 : (1 : ℝ) / (2 * (1 / 8)) = 4 := by norm_num
  rw [h4]
  have hlog : Real.log 4 / Real.log (((2 : ℤ) : ℝ)) = 2 := by
    push_cast
    rw [show (4 : ℝ) = 2 ^ 2 by norm_num, Real.log_pow]
    have h2 : Real.log 2 ≠ 0 := ne_of_gt (Real.log_pos (by norm_num))
    field_simp
  rw [hlog]
  norm_num

/-! ### Structural facts about one loop iteration -/

theorem slack_nonneg : 0 ≤ slack := by
  rw [slack]
  positivity

theorem chebStep_pmin_ge (cfg : ChebConfig) (s : ChebState) :
    s.p_min ≤ (chebStep cfg s).p_min := by
  cases hfk : find_next_k s.p_min s.p_max (cfg.r * s.k) <;>
    simp only [chebStep, hfk] <;> exact le_max_left _ _

theorem chebStep_pmax_le (cfg : ChebConfig) (s : ChebState) :
    (chebStep cfg s).p_max ≤ s.p_max := by
  cases hfk : find_next_k s.p_min s.p_max (cfg.r * s.k) <;>
    simp only [chebStep, hfk] <;> exact min_le_left _ _

theorem chebStep_pmin_le_one (cfg : ChebConfig) (s : ChebState)
    (hs : s.p_min ≤ 1) : (chebStep cfg s).p_min ≤ 1 := by
  cases hfk : find_next_k s.p_min s.p_max (cfg.r * s.k) <;>
    simp only [chebStep, hfk] <;>
    exact max_le hs (le_trans (sub_le_self _ slack_nonneg)
      (le_trans (min_le_left _ _) (invert_T2rootp_mem_unit _ _ _).2))

theorem chebStep_pmax_nonneg (cfg : ChebConfig) (s : ChebState)
    (hs : 0 ≤ s.p_max) : 0 ≤ (chebStep cfg s).p_max := by
  cases hfk : find_next_k s.p_min s.p_max (cfg.r * s.k) <;>
    simp only [chebStep, hfk] <;>
    exact le_min hs (add_nonneg
      (le_trans (invert_T2rootp_mem_unit _ _ _).1 (le_max_left _ _)) slack_nonneg)

theorem chebRun_bounds (cfg : ChebConfig) (i : ℕ) :
    0 ≤ (chebRun cfg i).p_min ∧ (chebRun cfg i).p_min ≤ 1 ∧
      0 ≤ (chebRun cfg i).p_max ∧ (chebRun cfg i).p_max ≤ 1 := by
  induction i with
  | zero => norm_num [chebRun, chebInit]
  | succ n ih =>
    rw [chebRun]
    split
    · exact ⟨le_trans ih.1 (chebStep_pmin_ge _ _),
        chebStep_pmin_le_one _ _ ih.2.1,
        chebStep_pmax_nonneg _ _ ih.2.2.1,
        le_trans (chebStep_pmax_le _ _) ih.2.2.2⟩
    · exact ih

/-! ### Round-trip correctness of the interval inverter -/

/-- Claim C2: round-trip of the interval inverter.  For every odd degree
`n = 2k+1`, every `p ∈ [0,1]`, and every reference point `pref` whose
half-period index `t = tRef n pref` satisfies
`t·(π/2n) ≤ arccos √p ≤ (t+1)·(π/2n)` — that is, `p` lies in the same
monotonicity half-period of `T²_n(√·)` as the reference —
`invert_T2rootp (T_n(√p)², n, pref)` returns exactly `p`.  In this
exact-real embedding the recovery is exact, hence in particular within any
floating tolerance. -/
theorem invert_roundtrip (n : ℤ) (k : ℕ) (hn : n = 2 * (k : ℤ) + 1) (p pref : ℝ)
    (hp0 : 0 ≤ p) (hp1 : p ≤ 1)
    (hlo : ((tRef n pref : ℤ) : ℝ) * halfPeriod n ≤ Real.arccos (Real.sqrt p))
    (hhi : Real.arccos (Real.sqrt p) ≤ (((tRef n pref : ℤ) : ℝ) + 1) * halfPeriod n) :
    invert_T2rootp (chebT2 n p) n pref = p := by
  have hnR : (0 : ℝ) < (n : ℝ) := by
    rw [hn]
    push_cast
    positivity
  have hnne : (n : ℝ) ≠ 0 := ne_of_gt hnR
  set θ := Real.arccos (Real.sqrt p) with hθdef
  have hsp : Real.cos θ = Real.sqrt p :=
    Real.cos_arccos (by linarith [Real.sqrt_nonneg p]) (Real.sqrt_le_one.mpr hp1)
  have hcheb : 2 * chebT2 n p - 1 = Real.cos (2 * (n : ℝ) * θ) := by
    rw [chebT2_eq_cos n p hp1, ← hθdef,
      show (2 : ℝ) * (n : ℝ) * θ = 2 * ((n : ℝ) * θ) by ring, Real.cos_two_mul]
  have h2n : (0 : ℝ) < 2 * (n : ℝ) := by positivity
  have hu1 : ((tRef n pref : ℤ) : ℝ) * π ≤ 2 * (n : ℝ) * θ := by
    have h := mul_le_mul_of_nonneg_left hlo h2n.le
    calc ((tRef n pref : ℤ) : ℝ) * π
        = 2 * (n : ℝ) * (((tRef n pref : ℤ) : ℝ) * halfPeriod n) := by
          rw [halfPeriod]
          field_simp
      _ ≤ 2 * (n : ℝ) * θ := h
  have hu2 : 2 * (n : ℝ) * θ ≤ (((tRef n pref : ℤ) : ℝ) + 1) * π := by
    have h := mul_le_mul_of_nonneg_left hhi h2n.le
    calc 2 * (n : ℝ) * θ
        ≤ 2 * (n : ℝ) * ((((tRef n pref : ℤ) : ℝ) + 1) * halfPeriod n) := h
      _ = (((tRef n pref : ℤ) : ℝ) + 1) * π := by
          rw [halfPeriod]
          field_simp
  rcases Int.even_or_odd (tRef n pref) with ⟨m, hm⟩ | ⟨m, hm⟩
  · have hmod : tRef n pref % 2 = 0 := by omega
    have hdiv : tRef n pref / 2 = m := by omega
    have htR : ((tRef n pref : ℤ) : ℝ) = 2 * (m : ℝ) := by
      rw [hm]
      push_cast
      ring
    rw [invert_T2rootp, invertTheta, if_pos hmod, hdiv]
    rw [htR] at hu1 hu2
    have hb1 : 0 ≤ 2 * (n : ℝ) * θ - (m : ℝ) * (2 * π) := by linarith
    have hb2 : 2 * (n : ℝ) * θ - (m : ℝ) * (2 * π) ≤ π := by linarith
    have key : Real.arccos (2 * chebT2 n p - 1) =
        2 * (n : ℝ) * θ - (m : ℝ) * (2 * π) := by
      rw [hcheb, ← Real.cos_sub_int_mul_two_pi (2 * (n : ℝ) * θ) m]
      exact Real.arccos_cos hb1 hb2
    rw [key]
    have hθeq : (2 * (n : ℝ) * θ - (m : ℝ) * (2 * π)) / (2 * (n : ℝ)) +
        π * ((m : ℤ) : ℝ) / (n : ℝ) = θ := by
      field_simp
      ring
    rw [hθeq, hsp, Real.sq_sqrt hp0]
  · have hmod : ¬ tRef n pref % 2 = 0 := by omega
    have hdiv : tRef n pref / 2 = m := by omega
    have htR : ((tRef n pref : ℤ) : ℝ) = 2 * (m : ℝ) + 1 := by
      rw [hm]
      push_cast
      ring
    rw [invert_T2rootp, invertTheta, if_neg hmod, hdiv]
    rw [htR] at hu1 hu2
    have hb1 : 0 ≤ ((m : ℝ) + 1) * (2 * π) - 2 * (n : ℝ) * θ := by linarith
    have hb2 : ((m : ℝ) + 1) * (2 * π) - 2 * (n : ℝ) * θ ≤ π := by linarith
    have key : Real.arccos (2 * chebT2 n p - 1) =
        ((m : ℝ) + 1) * (2 * π) - 2 * (n : ℝ) * θ := by
      rw [hcheb, ← Real.cos_int_mul_two_pi_sub (2 * (n : ℝ) * θ) (m + 1)]
      push_cast
      exact Real.arccos_cos hb1 hb2
    rw [key, halfPeriod]
    have hθeq : 2 * (π / (2 * (n : ℝ))) -
        (((m : ℝ) + 1) * (2 * π) - 2 * (n : ℝ) * θ) / (2 * (n : ℝ)) +
        π * ((m : ℤ) : ℝ) / (n : ℝ) = θ := by
      field_simp
      ring
    rw [hθeq, hsp, Real.sq_sqrt hp0]

/-! ### Facts about the degree selector -/

theorem firstCandidate_parity_bounds (pmin pmax : ℝ) :
    firstCandidate pmin pmax % 2 = 1 ∧
      n0cand pmin pmax ≤ firstCandidate pmin pmax ∧
      firstCandidate pmin pmax ≤ n0cand pmin pmax + 1 := by
  rw [firstCandidate]
  split <;> omega

theorem findLoopAux_some_gt (mk : ℤ) (lo hi : ℝ) :
    ∀ fuel : ℕ, ∀ n : ℤ, n ≤ 2 * mk + 1 + 2 * fuel → n % 2 = 1 →
      ∀ k : ℤ, findLoopAux mk lo hi n = some k → mk < k := by
  intro fuel
  induction fuel with
  | zero =>
    intro n hle hodd k hk
    rw [findLoopAux, dif_neg (by omega)] at hk
    cases hk
  | succ f ih =>
    intro n hle hodd k hk
    rw [findLoopAux] at hk
    by_cases hg : 2 * mk + 1 < n
    · rw [dif_pos hg] at hk
      by_cases ht : pytrunc (2 * (n : ℝ) * lo / π) = pytrunc (2 * (n : ℝ) * hi / π)
      · rw [if_pos ht] at hk
        injection hk with hk2
        omega
      · rw [if_neg ht] at hk
        exact ih (n - 2) (by omega) (by omega) k hk
    · rw [dif_neg hg] at hk
      cases hk

theorem find_next_k_gt (pmin pmax : ℝ) (mk k : ℤ)
    (h : find_next_k pmin pmax mk = some k) : mk < k := by
  rw [find_next_k] at h
  have hfc := firstCandidate_parity_bounds pmin pmax
  exact findLoopAux_some_gt mk _ _
    ((firstCandidate pmin pmax - (2 * mk + 1)).toNat)
    (firstCandidate pmin pmax) (by omega) hfc.1 k h

theorem arccos_sqrt_cospi8 :
    Real.arccos (Real.sqrt (Real.cos (π / 8) ^ 2)) = π / 8 := by
  rw [Real.sqrt_sq (Real.cos_nonneg_of_mem_Icc
    (by constructor <;> linarith [pi_pos]))]
  exact Real.arccos_cos (by positivity) (by linarith [pi_pos])

theorem pytrunc_zero_lo (n : ℤ) : pytrunc (2 * (n : ℝ) * 0 / π) = 0 := by
  rw [show 2 * (n : ℝ) * 0 / π = 0 by ring, pytrunc_of_nonneg le_rfl]
  norm_num

theorem n0cand_cospi8 : n0cand (Real.cos (π / 8) ^ 2) 1 = 4 := by
  rw [n0cand, arccos_sqrt_cospi8, Real.sqrt_one, Real.arccos_one]
  have hr : (π / 2) / (π / 8 - 0) = 4 := by
    rw [sub_zero]
    rw [div_eq_iff (by positivity : π / 8 ≠ 0)]
    ring
  rw [hr, pytrunc_of_nonneg (by norm_num)]
  norm_num

theorem find_next_k_cospi8 : find_next_k (Real.cos (π / 8) ^ 2) 1 0 = some 1 := by
  have hfc : firstCandidate (Real.cos (π / 8) ^ 2) 1 = 5 := by
    rw [firstCandidate, n0cand_cospi8]
    norm_num
  rw [find_next_k, hfc, Real.sqrt_one, Real.arccos_one, arccos_sqrt_cospi8]
  rw [findLoopAux, dif_pos (by norm_num)]
  have h5b : pytrunc (2 * ((5 : ℤ) : ℝ) * (π / 8) / π) = 1 := by
    have hv : 2 * ((5 : ℤ) : ℝ) * (π / 8) / π = 5 / 4 := by
      push_cast
      field_simp
      ring
    rw [hv, pytrunc_of_nonneg (by norm_num), Int.floor_eq_iff]
    norm_num
  rw [if_neg (by rw [pytrunc_zero_lo, h5b]; norm_num)]
  rw [show (5 : ℤ) - 2 = 3 by norm_num]
  rw [findLoopAux, dif_pos (by norm_num)]
  have h3b : pytrunc (2 * ((3 : ℤ) : ℝ) * (π / 8) / π) = 0 := by
    have hv : 2 * ((3 : ℤ) : ℝ) * (π / 8) / π = 3 / 4 := by
      push_cast
      field_simp
      ring
    rw [hv, pytrunc_of_nonneg (by norm_num), Int.floor_eq_iff]
    norm_num
  rw [if_pos (by rw [pytrunc_zero_lo, h3b])]
  norm_num

/-- Modelled from the spec (section 4.3 and the claim): the candidate odd
degree starts at the LARGEST odd integer that is at most
`⌊(π/2)/(θ_hi − θ_lo)⌋`, written with the floor the spec uses.  This
definition follows the spec's words, for comparison with the source's
`firstCandidate`. -/
def specFirstCandidate (pmin pmax : ℝ) : ℤ :=
  if ⌊(π / 2) / (Real.arccos (Real.sqrt pmin) - Real.arccos (Real.sqrt pmax))⌋ % 2 = 0
  then ⌊(π / 2) / (Real.arccos (Real.sqrt pmin) - Real.arccos (Real.sqrt pmax))⌋ - 1
  else ⌊(π / 2) / (Real.arccos (Real.sqrt pmin) - Real.arccos (Real.sqrt pmax))⌋

theorem specFirstCandidate_cospi8 :
    specFirstCandidate (Real.cos (π / 8) ^ 2) 1 = 3 := by
  rw [specFirstCandidate, arccos_sqrt_cospi8, Real.sqrt_one, Real.arccos_one]
  have hr : (π / 2) / (π / 8 - 0) = 4 := by
    rw [sub_zero, div_eq_iff (by positivity : π / 8 ≠ 0)]
    ring
  rw [hr]
  norm_num

theorem firstCandidate_cospi8 : firstCandidate (Real.cos (π / 8) ^ 2) 1 = 5 := by
  rw [firstCandidate, n0cand_cospi8]
  norm_num

/-! ### Degree-3 evaluations of the squared Chebyshev polynomial -/

theorem chebT2_three_quarter : chebT2 3 (1 / 4) = 1 := by
  have hs : Real.sqrt (1 / 4 : ℝ) = 1 / 2 := by
    rw [show (1 / 4 : ℝ) = (1 / 2) ^ 2 by norm_num,
      Real.sqrt_sq (by norm_num : (0:ℝ) ≤ 1 / 2)]
  have ha : Real.arccos (1 / 2 : ℝ) = π / 3 := by
    rw [← Real.cos_pi_div_three]
    exact Real.arccos_cos (by positivity) (by linarith [pi_pos])
  rw [chebT2_eq_cos 3 (1 / 4) (by norm_num), hs, ha]
  push_cast
  rw [show (3 : ℝ) * (π / 3) = π by ring, Real.cos_pi]
  norm_num

theorem chebT2_three_threequarters : chebT2 3 (3 / 4) = 0 := by
  have hs : Real.sqrt (3 / 4 : ℝ) = Real.sqrt 3 / 2 := by
    rw [show (3 / 4 : ℝ) = (Real.sqrt 3 / 2) ^ 2 by
        rw [div_pow, Real.sq_sqrt (by norm_num : (0:ℝ) ≤ 3)]
        norm_num,
      Real.sqrt_sq (by positivity)]
  have ha : Real.arccos (Real.sqrt 3 / 2) = π / 6 := by
    rw [← Real.cos_pi_div_six]
    exact Real.arccos_cos (by positivity) (by linarith [pi_pos])
  rw [chebT2_eq_cos 3 (3 / 4) (by norm_num), hs, ha]
  push_cast
  rw [show (3 : ℝ) * (π / 6) = π / 2 by ring, Real.cos_pi_div_two]
  norm_num

theorem chebT2_three_zero : chebT2 3 0 = 0 := by
  rw [chebT2_eq_cos 3 0 (by norm_num), Real.sqrt_zero, Real.arccos_zero]
  push_cast
  rw [show (3 : ℝ) * (π / 2) = π + π / 2 by ring, Real.cos_add, Real.cos_pi,
    Real.sin_pi, Real.cos_pi_div_two]
  norm_num

/-- Modelled from the spec (section 4.5 step 2 and the formula in the
notebook's own markdown cell): the early/late test computed with the
absolute value of the gap, `err_max * (p_max - p_min) / |gap| < nu * eps`.
This definition follows the spec's words, for comparison with the source's
`lateTest`. -/
def lateTestSpec (err nu eps pmin pmax gap : ℝ) : Prop :=
  err * (pmax - pmin) / |gap| < nu * eps

/-! ### The claims -/

/-- Claim C1: for every run of the estimation loop — any configuration and
any behaviour of the external confidence-interval routine and random
source — the sequence of interval widths `p_max - p_min` at the tops of
successive iterations is non-increasing, because step 6 updates by
intersection (`p_min ← max`, `p_max ← min`). -/
theorem claim1_width_nonincreasing (cfg : ChebConfig) (i : ℕ) :
    (chebRun cfg (i + 1)).p_max - (chebRun cfg (i + 1)).p_min ≤
      (chebRun cfg i).p_max - (chebRun cfg i).p_min := by
  rw [chebRun]
  split
  · exact sub_le_sub (chebStep_pmax_le _ _) (chebStep_pmin_ge _ _)
  · exact le_rfl

/-- Witness for C2: at `n = 1` (k = 0), `p = pref = 1`, the reference's
half-period contains `p` and the inverter recovers `p = 1` from
`T²_1(√1)`. -/
theorem claim2_witness : invert_T2rootp (chebT2 1 1) 1 1 = 1 := by
  have h0 : Real.arccos (Real.sqrt 1) = 0 := by rw [Real.sqrt_one, Real.arccos_one]
  have ht : tRef 1 1 = 0 := by rw [tRef, h0, zero_div, Int.floor_zero]
  have hc : 0 < halfPeriod 1 := by
    rw [halfPeriod]
    push_cast
    positivity
  exact invert_roundtrip 1 0 (by norm_num) 1 1 (by norm_num) le_rfl
    (by rw [ht, h0]; push_cast; norm_num)
    (by rw [ht, h0]; push_cast; linarith)

/-- Claim C3 is a code bug: the notebook's own markdown formula and the
spec put `|gap|` in the denominator of the late test, but the code divides
by the signed `gap` with no absolute value.  At the state `p_min = 1/4`,
`p_max = 3/4`, degree `n = 3`, `err_max = 1/2`, `ν = 8`, `ε = 1/64` the gap
is `0 - 1 = -1 < 0`: the code's test (ratio `-1/4 < 1/8`) declares LATE
and draws 1 sample, while the documented test with `|gap|` (ratio
`1/4 ≥ 1/8`) declares EARLY and would draw `N_shots` samples. -/
theorem claim3_signed_gap_divergence :
    lateTest (1 / 2) 8 (1 / 64) (1 / 4) (3 / 4)
        (chebT2 3 (3 / 4) - chebT2 3 (1 / 4)) ∧
      ¬ lateTestSpec (1 / 2) 8 (1 / 64) (1 / 4) (3 / 4)
          (chebT2 3 (3 / 4) - chebT2 3 (1 / 4)) := by
  have hgap : chebT2 3 (3 / 4) - chebT2 3 (1 / 4) = -1 := by
    rw [chebT2_three_threequarters, chebT2_three_quarter]
    norm_num
  rw [hgap]
  constructor
  · rw [lateTest, if_neg (by norm_num)]
    norm_num
  · rw [lateTestSpec]
    norm_num

/-- Claim C4 counterexample: at `min_k = 0`, `p_min = 0`, `p_max = 1` the
degree selector returns the sentinel `None` (the loop guard `n > 1` fails
immediately for the initial candidate `n = 1`), NOT degree `n = 1`
(`k = 0`) as the claim asserts. -/
theorem claim4_counterexample : find_next_k 0 1 0 = none :=
  find_next_k_init_none

/-- Claim C4 (amended): the degree selector never returns a `k` whose degree
`n = 2k+1` satisfies `n ≤ 2·min_k+1` — every returned `k` exceeds `min_k` —
and in the particular case `min_k = 0`, `p_min = 0`, `p_max = 1` it returns
the no-improvement sentinel `None` (so the caller keeps its previous
degree), not `k = 0`. -/
theorem claim4_selector_floor :
    (∀ (pmin pmax : ℝ) (mk k : ℤ), find_next_k pmin pmax mk = some k →
        2 * mk + 1 < 2 * k + 1) ∧
      find_next_k 0 1 0 = none :=
  ⟨fun pmin pmax mk k h => by
      have := find_next_k_gt pmin pmax mk k h
      omega,
    find_next_k_init_none⟩

/-- Witness for C4: a concrete input on which the selector does return an
improvement — `p_min = cos²(π/8)`, `p_max = 1`, `min_k = 0` yields
`k = 1 > 0`. -/
theorem claim4_witness :
    find_next_k (Real.cos (π / 8) ^ 2) 1 0 = some 1 ∧
      2 * (0 : ℤ) + 1 < 2 * 1 + 1 :=
  ⟨find_next_k_cospi8,
    claim4_selector_floor.1 (Real.cos (π / 8) ^ 2) 1 0 1 find_next_k_cospi8⟩

/-- Claim C5 counterexample: at `p_min = cos²(π/8)`, `p_max = 1` the ratio
`(π/2)/(θ_hi−θ_lo)` is exactly 4, so the largest odd integer at most
`⌊ratio⌋` is 3 — but the code's first tested candidate is 5, because the
code rounds an even floor UP (`n += 1`), not down. -/
theorem claim5_counterexample :
    firstCandidate (Real.cos (π / 8) ^ 2) 1 = 5 ∧
      specFirstCandidate (Real.cos (π / 8) ^ 2) 1 = 3 :=
  ⟨firstCandidate_cospi8, specFirstCandidate_cospi8⟩

/-- Claim C5 (amended): the first candidate degree tested by the selector is
the SMALLEST odd integer that is greater than or equal to the truncated
ratio `int((π/2)/(θ_hi−θ_lo))` — the ratio itself when odd, one more when
even — not the largest odd integer below it; candidates then decrease
by 2. -/
theorem claim5_first_candidate (pmin pmax : ℝ) :
    firstCandidate pmin pmax % 2 = 1 ∧
      n0cand pmin pmax ≤ firstCandidate pmin pmax ∧
      firstCandidate pmin pmax ≤ n0cand pmin pmax + 1 :=
  firstCandidate_parity_bounds pmin pmax

/-- Claim C6 counterexample: invoking the loop with `α = 2 ∉ (0,1)` (all
other parameters the valid defaults) is not rejected: the first iteration
already draws a sample and increments the total cost, with no prior
configuration-error report — the code contains no validation at all. -/
theorem claim6_counterexample :
    ¬ (0 < (cfgConst 2).alpha ∧ (cfgConst 2).alpha < 1) ∧
      0 < (chebRun (cfgConst 2) 1).queries := by
  constructor
  · rw [cfgConst_alpha]
    norm_num
  · rw [chebRun_cfgConst]
    norm_num

/-- Claim C6 (amended): `chebpe` performs no configuration validation; for
EVERY value of α — in particular every α outside (0,1) — the run reaches
the sampling loop and its first iteration draws a sample (total cost
becomes positive), so no fail-fast configuration check precedes oracle
queries. -/
theorem claim6_no_validation (alpha : ℝ) :
    0 < (chebRun (cfgConst alpha) 1).queries := by
  rw [chebRun_cfgConst]
  norm_num

/-- Claim C7 counterexample: in the run `cfgConst (1/20)` (valid `ε = 1/8`,
`α = 0.05`, default `ν, r, N_shots`, adversarial external confidence
intervals) the planned round count is `T = 2`, so the claimed cap is
`T·2 = 4` iterations; yet the 5th iteration executes and draws a sample
(cost rises from 4 to 5) with no violation report — the code has no
iteration cap. -/
theorem claim7_counterexample :
    Tval (cfgConst (1 / 20)) * 2 = 4 ∧
      (chebRun (cfgConst (1 / 20)) 4).queries = 4 ∧
      (chebRun (cfgConst (1 / 20)) 5).queries = 5 := by
  refine ⟨?_, ?_, ?_⟩
  · rw [Tval_cfgConst]
    norm_num
  · rw [chebRun_cfgConst]
    norm_num
  · rw [chebRun_cfgConst]
    norm_num

/-- Claim C7 (amended): the code computes `T` once but imposes no iteration
cap of any kind: in the adversarial run `cfgConst (1/20)` the loop is still
iterating at every index `i` (the interval is still `(0,1)`, of width
`1 > 2ε`) having drawn exactly `i` samples — in particular it sails past
the claimed `T·2` bound, and no fatal internal-invariant state exists in
the code to report it. -/
theorem claim7_no_cap (i : ℕ) :
    (chebRun (cfgConst (1 / 20)) i).queries = i ∧
      (chebRun (cfgConst (1 / 20)) i).p_max -
        (chebRun (cfgConst (1 / 20)) i).p_min = 1 := by
  rw [chebRun_cfgConst]
  norm_num

/-- Claim C8: in an iteration whose gap `T²_n(√p_max) − T²_n(√p_min)` is
exactly zero, the early/late comparison does not fail: under the numpy
float semantics the code runs with (division of the nonnegative in-loop
numerator `err_max·(p_max−p_min)` by `+0.0` gives `+inf` or `nan`, and
neither is `< νε`), the iteration is treated as EARLY and draws `N_shots`
samples. -/
theorem claim8_zero_gap_early (err nu eps pmin pmax : ℝ) (N : ℕ)
    (h : 0 ≤ err * (pmax - pmin)) :
    shotsThisRound err nu eps pmin pmax 0 N = N := by
  have hnl : ¬ lateTest err nu eps pmin pmax 0 := by
    rw [lateTest, if_pos rfl]
    exact not_lt.mpr h
  rw [shotsThisRound, if_neg hnl]

/-- Witness for C8: the concrete degenerate state `p_min = 0`,
`p_max = 3/4`, degree `n = 3`, where both squared Chebyshev values vanish
so the gap is exactly zero; with `err_max = 1/2`, `N_shots = 100` the
iteration draws all 100 shots. -/
theorem claim8_witness :
    chebT2 3 (3 / 4) - chebT2 3 0 = 0 ∧
      shotsThisRound (1 / 2) 8 (1 / 64) 0 (3 / 4) 0 100 = 100 :=
  ⟨by rw [chebT2_three_threequarters, chebT2_three_zero]; norm_num,
    claim8_zero_gap_early (1 / 2) 8 (1 / 64) 0 (3 / 4) 100 (by norm_num)⟩

/-- Claim C9: across every run of `chebpe`, `p_min` is non-decreasing and
`p_max` is non-increasing from iteration to iteration, and both always
remain within `[0,1]` (starting from `(0,1)` and updated only by `max` with
the old `p_min` and `min` with the old `p_max`). -/
theorem claim9_bounds_monotone (cfg : ChebConfig) (i : ℕ) :
    ((chebRun cfg i).p_min ≤ (chebRun cfg (i + 1)).p_min ∧
        (chebRun cfg (i + 1)).p_max ≤ (chebRun cfg i).p_max) ∧
      (0 ≤ (chebRun cfg i).p_min ∧ (chebRun cfg i).p_min ≤ 1) ∧
      (0 ≤ (chebRun cfg i).p_max ∧ (chebRun cfg i).p_max ≤ 1) := by
  refine ⟨?_, ⟨(chebRun_bounds cfg i).1, (chebRun_bounds cfg i).2.1⟩,
    ⟨(chebRun_bounds cfg i).2.2.1, (chebRun_bounds cfg i).2.2.2⟩⟩
  rw [chebRun]
  split
  · exact ⟨chebStep_pmin_ge _ _, chebStep_pmax_le _ _⟩
  · exact ⟨le_rfl, le_rfl⟩

/-- Claim C10: for every `T2 ∈ [0,1]`, every positive odd degree
`n = 2k+1`, and every reference `p_int ∈ (0,1]`, the inverter's output lies
in `[0,1]`: it is `cos(θ)²` for a real angle `θ`, so it never produces a
probability outside the unit interval. -/
theorem claim10_output_unit (T2 : ℝ) (k : ℕ) (pint : ℝ)
    (h1 : 0 ≤ T2) (h2 : T2 ≤ 1) (h3 : 0 < pint) (h4 : pint ≤ 1) :
    0 ≤ invert_T2rootp T2 (2 * (k : ℤ) + 1) pint ∧
      invert_T2rootp T2 (2 * (k : ℤ) + 1) pint ≤ 1 :=
  invert_T2rootp_mem_unit _ _ _

/-- Witness for C10: at `T2 = 1`, `n = 1`, `p_int = 1` the output is in the
unit interval. -/
theorem claim10_witness :
    0 ≤ invert_T2rootp 1 (2 * ((0 : ℕ) : ℤ) + 1) 1 ∧
      invert_T2rootp 1 (2 * ((0 : ℕ) : ℤ) + 1) 1 ≤ 1 :=
  claim10_output_unit 1 0 1 (by norm_num) le_rfl (by norm_num) le_rfl

end ChebPE
